import Mathlib

/-!
Shallow embedding of the Serrante/Lottery draw-reconciliation and
combination-generation code (`src/data/data_frame_operations.py`,
`src/data/data_frame_operations_mongodb.py`, `src/data/mlp_model_operations.py`,
`src/configuration/config.py`), together with theorems settling the
specification claims about it.

Python strings are embedded as `List Char`; Python values that can appear in
a record's `dezenas` (numbers) field are embedded as `PyVal`, whose list and
tuple elements are flat scalars (`PyScalar`) — the only shapes the program
produces or consumes.  Randomness (`random.randint`) is embedded as an
explicit stream `rand : Nat → Nat` of draw outcomes together with the index
of the next draw; unbounded `while` loops are embedded with explicit fuel,
returning `none` when the fuel runs out before the loop exits.  Fallible
Python code (code that can raise) returns `Except String`.
-/

/-- Configuration value `VARIABLES["max_number"]` from `configuration/config.py`. -/
def VARIABLES_max_number : Nat := 25

/-- Configuration value `VARIABLES["prediction_count"]` from `configuration/config.py`. -/
def VARIABLES_prediction_count : Nat := 11

/-- A scalar Python value usable as an element of a numbers list: an `int`
or a `str` (embedded as `List Char`). -/
inductive PyScalar where
  | sint (n : Int)
  | sstr (s : List Char)
deriving DecidableEq, Repr

/-- A Python value that can appear in a record's `dezenas` field: a string,
a list or tuple of scalars, a bare int, or `None` (standing for any value
that is neither string nor list nor tuple nor int). -/
inductive PyVal where
  | vstr (s : List Char)
  | vlist (l : List PyScalar)
  | vtuple (l : List PyScalar)
  | vint (n : Int)
  | vnone
deriving DecidableEq, Repr

/-- The decimal digit character for `d < 10`, as produced by Python `str`. -/
def digitChar (d : Nat) : Char :=
  if d = 0 then '0' else if d = 1 then '1' else if d = 2 then '2'
  else if d = 3 then '3' else if d = 4 then '4' else if d = 5 then '5'
  else if d = 6 then '6' else if d = 7 then '7' else if d = 8 then '8' else '9'

/-- Numeric value of a decimal digit character (used by the model of Python `int`). -/
def digitVal (c : Char) : Nat := c.toNat - 48

/-- Decimal digit characters of a positive natural number, most significant
first; the first argument is fuel (any `fuel ≥ n` gives the digits of `n`). -/
def pyStrOfNatAux : Nat → Nat → List Char
  | _, 0 => []
  | 0, _ + 1 => []
  | fuel + 1, n + 1 =>
      pyStrOfNatAux fuel ((n + 1) / 10) ++ [digitChar ((n + 1) % 10)]

/-- Model of Python `str` on a natural number: its decimal digit string. -/
def pyStrOfNat (n : Nat) : List Char :=
  if n = 0 then ['0'] else pyStrOfNatAux n n

/-- Model of Python `str` on an `int`: optional minus sign followed by decimal digits. -/
def pyStrOfInt : Int → List Char
  | Int.ofNat n => pyStrOfNat n
  | Int.negSucc m => '-' :: pyStrOfNat (m + 1)

/-- Model of Python `int` applied to a nonempty all-digit string (the digits part). -/
def parseDigits (s : List Char) : Option Nat :=
  if s ≠ [] ∧ s.all Char.isDigit then
    some (s.foldl (fun acc c => acc * 10 + digitVal c) 0)
  else none

/-- Model of Python `int` applied to a string: optional minus sign followed by
decimal digits; any other string raises `ValueError` (here: `none`). -/
def pyIntOfStr (s : List Char) : Option Int :=
  match s with
  | [] => none
  | c :: rest =>
      if c = '-' then (parseDigits rest).map (fun n => -(n : Int))
      else (parseDigits (c :: rest)).map (fun n => (n : Int))

/-- Model of Python `", ".join` on a list of strings. -/
def joinCommaSpace : List (List Char) → List Char
  | [] => []
  | [t] => t
  | t :: ts => t ++ ',' :: ' ' :: joinCommaSpace ts

/-- Left-to-right scan underlying Python `str.split(", ")`: `acc` holds the
(reversed) characters of the current piece; an occurrence of `", "` ends the
current piece and starts a new one. -/
def splitAux : List Char → List Char → List (List Char)
  | acc, [] => [acc.reverse]
  | acc, [c] => [(c :: acc).reverse]
  | acc, c :: d :: cs =>
      if c = ',' ∧ d = ' ' then acc.reverse :: splitAux [] cs
      else splitAux (c :: acc) (d :: cs)

/-- Model of Python `str.split(", ")`. -/
def splitCommaSpace (s : List Char) : List (List Char) :=
  splitAux [] s

/-- One row of the tabular store (columns `concurso`, `data`, `dezenas` of the
Excel-backed DataFrame). -/
structure Row where
  concurso : Int
  data : List Char
  dezenas : PyVal
deriving DecidableEq, Repr

/-- One raw incoming draw payload from the feed (`result` in the merge loops):
fields `concurso`, `data`, `dezenas`. -/
structure Payload where
  concurso : Int
  data : List Char
  dezenas : PyVal
deriving DecidableEq, Repr

/-- One document of the MongoDB results collection after conversion: fields
`concurso`, `data`, `dezenas` (a Python list of scalars). -/
structure MDoc where
  concurso : Int
  data : List Char
  dezenas : List PyScalar
deriving DecidableEq, Repr

/-- Model of Python `int(x)` applied to one element of a numbers sequence. -/
def pyIntOfScalar : PyScalar → Except (List Char) Int
  | PyScalar.sint n => Except.ok n
  | PyScalar.sstr s =>
      match pyIntOfStr s with
      | some n => Except.ok n
      | none => Except.error ['V', 'a', 'l', 'u', 'e', 'E', 'r', 'r', 'o', 'r']

/-- Model of Python iteration over a `dezenas` value (`for x in dezenas`):
a string iterates over its one-character strings, a list or tuple over its
elements; an int or `None` raises `TypeError`. -/
def pyIterDezenas : PyVal → Except (List Char) (List PyScalar)
  | PyVal.vstr s => Except.ok (s.map (fun c => PyScalar.sstr [c]))
  | PyVal.vlist l => Except.ok l
  | PyVal.vtuple l => Except.ok l
  | PyVal.vint _ => Except.error ['T', 'y', 'p', 'e', 'E', 'r', 'r', 'o', 'r']
  | PyVal.vnone => Except.error ['T', 'y', 'p', 'e', 'E', 'r', 'r', 'o', 'r']

/-- Conversion of a list of scalars with Python `int`, raising on the first
unconvertible element. -/
def intsOfScalars : List PyScalar → Except (List Char) (List Int)
  | [] => Except.ok []
  | x :: xs => do
      let n ← pyIntOfScalar x
      let ns ← intsOfScalars xs
      Except.ok (n :: ns)

/-- The comprehension `[int(x) for x in dezenas]` from
`DataFrameManager.update_dataframe` (line 106). -/
def parseDezenas (v : PyVal) : Except (List Char) (List Int) := do
  let items ← pyIterDezenas v
  intsOfScalars items

/-- The serialization `", ".join(map(str, ints))` from
`DataFrameManager.update_dataframe` (line 106). -/
def dezenasStrOf (ints : List Int) : List Char :=
  joinCommaSpace (ints.map pyStrOfInt)

/-- Conversion of a list of string pieces with Python `int`, failing on the
first unparsable piece (the comprehension `[int(x) for x in ...]`). -/
def parseIntList : List (List Char) → Option (List Int)
  | [] => some []
  | t :: ts =>
      match pyIntOfStr t with
      | none => none
      | some n => (parseIntList ts).map (fun ns => n :: ns)

/-- Model of `ast.literal_eval`, restricted to the strings the serializer
produces (`", "`-joined decimal integer literals): a single integer literal
evaluates to a bare int, two or more to a tuple of ints; anything else
raises `ValueError`. -/
def literalEvalList (s : List Char) : Except (List Char) PyVal :=
  match parseIntList (splitCommaSpace s) with
  | none => Except.error ['V', 'a', 'l', 'u', 'e', 'E', 'r', 'r', 'o', 'r']
  | some [n] => Except.ok (PyVal.vint n)
  | some ns => Except.ok (PyVal.vtuple (ns.map PyScalar.sint))

namespace DataFrameManager

/-- `DataFrameManager.create_new_dataframe`: a DataFrame with the three columns
and no rows. -/
def create_new_dataframe : List Row := []

/-- `DataFrameManager.convert_string_to_list` applied to the `dezenas` column:
each cell that is a string is replaced by `ast.literal_eval` of it, other
cells pass through; an evaluation error propagates. -/
def convert_string_to_list : List Row → Except (List Char) (List Row)
  | [] => Except.ok []
  | r :: rest => do
      let cell ←
        match r.dezenas with
        | PyVal.vstr s => (literalEvalList s).map (fun v => { r with dezenas := v })
        | _ => Except.ok r
      let rest' ← convert_string_to_list rest
      Except.ok (cell :: rest')

/-- The possible states of the Excel backing store as seen by
`DataFrameManager.read_or_create_dataframe`: the file is absent, it reads
successfully as a list of rows, reading raises `pandas.errors.EmptyDataError`,
or reading raises some other exception. -/
inductive ExcelStore where
  | absent
  | content (rows : List Row)
  | emptyDataError (msg : List Char)
  | otherError (msg : List Char)

/-- `DataFrameManager.read_or_create_dataframe`: reads the file if present
(converting the `dezenas` column), creates a new empty DataFrame if the file
is absent, and catches only `pandas.errors.EmptyDataError`; any other
exception propagates to the caller. -/
def read_or_create_dataframe (store : ExcelStore) : Except (List Char) (List Row) :=
  match store with
  | ExcelStore.absent => Except.ok create_new_dataframe
  | ExcelStore.content rows => convert_string_to_list rows
  | ExcelStore.emptyDataError _ => Except.ok create_new_dataframe
  | ExcelStore.otherError e => Except.error e

/-- `DataFrameManager.update_dataframe`: for each incoming payload, parse its
numbers, serialize them to a `", "`-joined string, then either overwrite the
`data`/`dezenas` cells of every row whose `concurso` equals the payload's, or
append a new row when no row matches. -/
def update_dataframe (df : List Row) : List Payload → Except (List Char) (List Row)
  | [] => Except.ok df
  | result :: rest => do
      let ints ← parseDezenas result.dezenas
      let dezenas_str := dezenasStrOf ints
      let df' :=
        if df.any (fun r => r.concurso = result.concurso) then
          df.map (fun r =>
            if r.concurso = result.concurso then
              { r with data := result.data, dezenas := PyVal.vstr dezenas_str }
            else r)
        else df ++ [⟨result.concurso, result.data, PyVal.vstr dezenas_str⟩]
      update_dataframe df' rest

end DataFrameManager

namespace DataFrameManagerMongoDB

/-- The state of the MongoDB connection as seen by a read: either the results
collection holds a list of documents, or the driver raises a `PyMongoError`. -/
inductive MongoConn where
  | ok (docs : List MDoc)
  | pyMongoError (msg : List Char)

/-- The value returned by `read_or_create_data_from_mongodb`: a plain list or
a DataFrame built from the documents. -/
inductive MongoReadResult where
  | rlist (l : List MDoc)
  | rdf (docs : List MDoc)
deriving DecidableEq, Repr

/-- A pymongo `Cursor` has no `__bool__`/`__len__`, so `if result:` uses
default object truthiness and is always true. -/
def cursorTruthy (_ : List MDoc) : Bool := true

/-- `DataFrameManagerMongoDB.read_or_create_data_from_mongodb`: runs `find()`,
tests the cursor for truthiness, builds a DataFrame when `dataframe` is true
and otherwise sets the result to the empty list; any `PyMongoError` is caught
and the result is the empty list. -/
def read_or_create_data_from_mongodb (conn : MongoConn) (dataframe : Bool) :
    MongoReadResult :=
  match conn with
  | MongoConn.ok docs =>
      if cursorTruthy docs then
        if dataframe then MongoReadResult.rdf docs else MongoReadResult.rlist []
      else MongoReadResult.rlist []
  | MongoConn.pyMongoError _ => MongoReadResult.rlist []

/-- The list held by a `MongoReadResult` (the non-DataFrame read path is used
as a plain Python list by its caller). -/
def asList : MongoReadResult → List MDoc
  | MongoReadResult.rlist l => l
  | MongoReadResult.rdf docs => docs

/-- `DataFrameManagerMongoDB.update_data_to_mongodb` on the collection state:
for each document, `find_one({"concurso": ...})`; if no document with that
`concurso` exists, `insert_one` appends it; an existing document is left
untouched. -/
def update_data_to_mongodb (store : List MDoc) : List MDoc → List MDoc
  | [] => store
  | document :: rest =>
      let store' :=
        if store.any (fun d => d.concurso = document.concurso) then store
        else store ++ [document]
      update_data_to_mongodb store' rest

/-- `DataFrameManagerMongoDB.convert_string_to_list`: a string is split on
`", "` and each piece converted with `int` (raising `ValueError` on an
unparsable piece); a list is returned unchanged; any other input is logged
and replaced by the empty list. -/
def convert_string_to_list (dezenas_str : PyVal) : Except (List Char) (List PyScalar) :=
  match dezenas_str with
  | PyVal.vstr s =>
      match parseIntList (splitCommaSpace s) with
      | some ns => Except.ok (ns.map PyScalar.sint)
      | none => Except.error ['V', 'a', 'l', 'u', 'e', 'E', 'r', 'r', 'o', 'r']
  | PyVal.vlist l => Except.ok l
  | _ => Except.ok []

/-- The `for result in lottery_data` loop of `update_dataframe_mongodb`:
appends one converted document per incoming payload to `existing_data`. -/
def appendLoop (existing_data : List MDoc) :
    List Payload → Except (List Char) (List MDoc)
  | [] => Except.ok existing_data
  | result :: rest => do
      let dezenas ← convert_string_to_list result.dezenas
      appendLoop (existing_data ++ [⟨result.concurso, result.data, dezenas⟩]) rest

/-- `DataFrameManagerMongoDB.update_dataframe_mongodb`: reads the existing
data (with `dataframe=False`), appends one converted document per incoming
payload, writes the result with `update_data_to_mongodb`, and returns the
pair (new collection state, returned list). -/
def update_dataframe_mongodb (store : List MDoc) (lottery_data : List Payload) :
    Except (List Char) (List MDoc × List MDoc) := do
  let existing0 := asList (read_or_create_data_from_mongodb (MongoConn.ok store) false)
  let existing_data ← appendLoop existing0 lottery_data
  let store' := update_data_to_mongodb store existing_data
  pure (store', existing_data)

end DataFrameManagerMongoDB

namespace MLPModelOperations

/-- The inner `while random_number in fixed_numbers` loop of
`generate_final_combinations`: draws from the random stream at index `i`
until a value outside `fixed_numbers` appears, with explicit fuel for the
unbounded loop.  Returns the drawn value and the next stream index. -/
def drawNotIn (fixed_numbers : List Nat) (rand : Nat → Nat) :
    Nat → Nat → Option (Nat × Nat)
  | _, 0 => none
  | i, Nat.succ fuel =>
      let random_number := rand i
      if random_number ∈ fixed_numbers then drawNotIn fixed_numbers rand (i + 1) fuel
      else some (random_number, i + 1)

/-- The outer `while len(combinations_set) < prediction_count` loop of
`generate_final_combinations`.  The Python set of tuples is embedded as a
duplicate-free list (`combination not in combinations_set` guards insertion). -/
def genLoop (fixed_numbers : List Nat) (rand : Nat → Nat) :
    Nat → Nat → List (List Nat) → Option (List (List Nat))
  | _, 0, _ => none
  | i, Nat.succ fuel, combinations_set =>
      if combinations_set.length < VARIABLES_prediction_count then
        match drawNotIn fixed_numbers rand i (fuel + 1) with
        | none => none
        | some (random_number, j) =>
            let combination := fixed_numbers ++ [random_number]
            let cs :=
              if combination ∈ combinations_set then combinations_set
              else combinations_set ++ [combination]
            genLoop fixed_numbers rand j fuel cs
      else some combinations_set

/-- `MLPModelOperations.generate_final_combinations` over an explicit random
stream and fuel. -/
def generate_final_combinations (fixed_numbers : List Nat) (rand : Nat → Nat)
    (fuel : Nat) : Option (List (List Nat)) :=
  genLoop fixed_numbers rand 0 fuel []

/-- Stable descending insertion into a list of indices ordered by score
(model of the sort underlying `np.argsort(-scores)`; numpy's tie order is
unspecified, this picks one admissible order). -/
def insertDesc (scores : List Rat) (i : Nat) : List Nat → List Nat
  | [] => [i]
  | j :: rest =>
      if scores.getD i 0 ≥ scores.getD j 0 then i :: j :: rest
      else j :: insertDesc scores i rest

/-- Model of `np.argsort(-scores)`: the column indices sorted by descending
mean predicted probability. -/
def argsortDesc (scores : List Rat) : List Nat :=
  (List.range scores.length).foldr (insertDesc scores) []

/-- Model of `np.clip(v, lo, hi)` on one entry. -/
def np_clip (v lo hi : Nat) : Nat := min hi (max lo v)

/-- The `while len(unique_numbers) < 14` padding loop of
`generate_random_numbers`, with explicit fuel. -/
def padLoop (rand : Nat → Nat) : Nat → Nat → List Nat → Option (List Nat)
  | _, 0, _ => none
  | i, Nat.succ fuel, unique_numbers =>
      if unique_numbers.length < 14 then
        let random_number := rand i
        let un :=
          if random_number ∈ unique_numbers then unique_numbers
          else unique_numbers ++ [random_number]
        padLoop rand (i + 1) fuel un
      else some unique_numbers

/-- `MLPModelOperations.generate_random_numbers`, starting from the mean
predicted probability per class (`probabilities.mean(axis=0)`), over an
explicit random stream and fuel.  `list(set(...))` is embedded as `dedup`
(Python set iteration order is unspecified; this picks one admissible
order). -/
def generate_random_numbers (scores : List Rat) (rand : Nat → Nat) (fuel : Nat) :
    Option (List Nat) :=
  let sorted_probabilities :=
    ((argsortDesc scores).take 14).map (fun i => np_clip (i + 1) 1 25)
  let unique_numbers := sorted_probabilities.dedup
  padLoop rand 0 fuel unique_numbers

end MLPModelOperations


/-- The per-payload conversion step of `update_dataframe_mongodb` (proof-side
characterization of its loop body). -/
def convDoc (result : Payload) : Except (List Char) MDoc :=
  (DataFrameManagerMongoDB.convert_string_to_list result.dezenas).map
    (fun dezenas => ⟨result.concurso, result.data, dezenas⟩)

/-- The `concurso` key column of a tabular DataFrame. -/
def keysOf (df : List Row) : List Int := df.map Row.concurso

/-- The `concurso` key column of a MongoDB collection state. -/
def keysOfM (store : List MDoc) : List Int := store.map MDoc.concurso

/-- The parsed form of one payload in `update_dataframe`: its key, its date,
and the serialized numbers string (proof-side characterization). -/
def parseTriple (result : Payload) : Except (List Char) (Int × List Char × List Char) :=
  (parseDezenas result.dezenas).map
    (fun ints => (result.concurso, result.data, dezenasStrOf ints))

/-- The row-overwrite function of `update_dataframe` (the `df.loc[...] = ...`
assignment) applied to one row. -/
def owRow (c : Int) (d : List Char) (ds : List Char) (r : Row) : Row :=
  if r.concurso = c then { r with data := d, dezenas := PyVal.vstr ds } else r

/-- The merge of one parsed payload into the DataFrame: overwrite all rows
with the payload's key if one exists, otherwise append a new row. -/
def merge1 (df : List Row) (t : Int × List Char × List Char) : List Row :=
  if df.any (fun r => r.concurso = t.1) then df.map (owRow t.1 t.2.1 t.2.2)
  else df ++ [⟨t.1, t.2.1, PyVal.vstr t.2.2⟩]

/-- The pure part of `update_dataframe`, over already-parsed payloads. -/
def updatePure (df : List Row) (ts : List (Int × List Char × List Char)) : List Row :=
  ts.foldl merge1 df

/-- Whether a Python value is a collection (list or tuple), as opposed to a
bare scalar. -/
def isCollectionVal : PyVal → Bool
  | PyVal.vlist _ => true
  | PyVal.vtuple _ => true
  | _ => false


/-- Parse of a whole incoming batch (proof-side characterization): the parsed
triples of all payloads, or the first parse failure. -/
def parseBatch : List Payload → Except (List Char) (List (Int × List Char × List Char))
  | [] => Except.ok []
  | p :: ps => do
      let t ← parseTriple p
      let ts ← parseBatch ps
      Except.ok (t :: ts)

/-- The keys of a parsed batch. -/
def batchKeys (ts : List (Int × List Char × List Char)) : List Int :=
  ts.map (fun t => t.1)

/-- Two rows agree positionally up to keys in `ks`: same key, and either
equal or their key is one of `ks` (used to show a re-merge overwrites every
difference). -/
def rowRel (ks : List Int) (x y : Row) : Prop :=
  x.concurso = y.concurso ∧ (x = y ∨ x.concurso ∈ ks)

/-- Conversion of a whole incoming batch by the document backend (proof-side
characterization of `appendLoop`): the converted documents of all payloads,
or the first conversion failure. -/
def convBatch : List Payload → Except (List Char) (List MDoc)
  | [] => Except.ok []
  | p :: ps => do
      let d ← convDoc p
      let ds ← convBatch ps
      Except.ok (d :: ds)

theorem digitChar_spec {d : Nat} (h : d < 10) :
    digitVal (digitChar d) = d ∧ (digitChar d).isDigit = true ∧
    digitChar d ≠ ',' ∧ digitChar d ≠ '-' := by
  interval_cases d <;> exact ⟨by decide, by decide, by decide, by decide⟩

theorem pyStrOfNatAux_eq (fuel : Nat) :
    ∀ n, n ≤ fuel → pyStrOfNatAux fuel n = ((Nat.digits 10 n).map digitChar).reverse := by
  induction fuel with
  | zero =>
      intro n hn
      interval_cases n
      simp [pyStrOfNatAux]
  | succ fuel ih =>
      intro n hn
      match n with
      | 0 => simp [pyStrOfNatAux]
      | m + 1 =>
          have hdiv : (m + 1) / 10 ≤ fuel := by
            have := Nat.div_lt_self (Nat.succ_pos m) (by norm_num : 1 < 10)
            omega
          rw [pyStrOfNatAux, ih _ hdiv,
            Nat.digits_def' (by norm_num : 1 < 10) (Nat.succ_pos m)]
          simp

theorem pyStrOfNat_eq (n : Nat) :
    pyStrOfNat n = if n = 0 then ['0'] else ((Nat.digits 10 n).map digitChar).reverse := by
  unfold pyStrOfNat
  split
  · rfl
  · exact pyStrOfNatAux_eq n n le_rfl

theorem pyStrOfNat_ne_nil (n : Nat) : pyStrOfNat n ≠ [] := by
  rw [pyStrOfNat_eq]
  split
  · simp
  · simp [Nat.digits_ne_nil_iff_ne_zero, *]

theorem pyStrOfNat_all_isDigit {n : Nat} {c : Char} (hc : c ∈ pyStrOfNat n) :
    c.isDigit = true := by
  rw [pyStrOfNat_eq] at hc
  split at hc
  · simp at hc; subst hc; decide
  · simp only [List.mem_reverse, List.mem_map] at hc
    obtain ⟨d, hd, rfl⟩ := hc
    exact (digitChar_spec (Nat.digits_lt_base (by norm_num) hd)).2.1

theorem foldr_digitChar_eq_ofDigits (L : List Nat) (h : ∀ d ∈ L, d < 10) :
    (L.map digitChar).foldr (fun c acc => acc * 10 + digitVal c) 0 = Nat.ofDigits 10 L := by
  induction L with
  | nil => simp [Nat.ofDigits]
  | cons d L ih =>
      have hd : d < 10 := h d (by simp)
      have hL : ∀ x ∈ L, x < 10 := fun x hx => h x (by simp [hx])
      simp only [List.map_cons, List.foldr_cons, ih hL, Nat.ofDigits_cons,
        (digitChar_spec hd).1]
      omega

theorem parseDigits_pyStrOfNat (n : Nat) : parseDigits (pyStrOfNat n) = some n := by
  by_cases h0 : n = 0
  · subst h0; decide
  · have hne : pyStrOfNat n ≠ [] := pyStrOfNat_ne_nil n
    have hall : (pyStrOfNat n).all Char.isDigit = true := by
      rw [List.all_eq_true]
      exact fun c hc => pyStrOfNat_all_isDigit hc
    unfold parseDigits
    rw [if_pos ⟨hne, hall⟩]
    rw [pyStrOfNat_eq]
    rw [if_neg h0, List.foldl_reverse,
      foldr_digitChar_eq_ofDigits _ (fun d hd => Nat.digits_lt_base (by norm_num) hd),
      Nat.ofDigits_digits]

theorem pyIntOfStr_pyStrOfInt (k : Int) : pyIntOfStr (pyStrOfInt k) = some k := by
  cases k with
  | ofNat n =>
      have hne := pyStrOfNat_ne_nil n
      rcases hs : pyStrOfNat n with _ | ⟨c, rest⟩
      · exact absurd hs hne
      · have hcdig : c.isDigit = true := pyStrOfNat_all_isDigit (by rw [hs]; simp)
        have hc : c ≠ '-' := by
          intro h; rw [h] at hcdig; simp [Char.isDigit] at hcdig
        show pyIntOfStr (pyStrOfNat n) = some (n : Int)
        rw [hs]
        simp only [pyIntOfStr]
        rw [if_neg hc, ← hs, parseDigits_pyStrOfNat]
        rfl
  | negSucc m =>
      show pyIntOfStr ('-' :: pyStrOfNat (m + 1)) = some (Int.negSucc m)
      simp only [pyIntOfStr]
      rw [if_pos trivial, parseDigits_pyStrOfNat]
      simp [Int.negSucc_eq]

theorem pyStrOfInt_noComma {k : Int} {c : Char} (hc : c ∈ pyStrOfInt k) : c ≠ ',' := by
  cases k with
  | ofNat n =>
      have := pyStrOfNat_all_isDigit (n := n) hc
      intro h; rw [h] at this; simp [Char.isDigit] at this
  | negSucc m =>
      rcases List.mem_cons.mp hc with rfl | hc'
      · decide
      · have := pyStrOfNat_all_isDigit hc'
        intro h; rw [h] at this; simp [Char.isDigit] at this

theorem splitAux_of_noComma : ∀ t acc : List Char, ',' ∉ t →
    splitAux acc t = [acc.reverse ++ t] := by
  intro t
  induction t with
  | nil => intro acc _; simp [splitAux]
  | cons c cs ih =>
      intro acc h
      have hc : c ≠ ',' := fun hm => h (by simp [hm])
      cases cs with
      | nil => simp [splitAux]
      | cons d ds =>
          rw [splitAux, if_neg (by simp [hc]), ih (c :: acc) (fun hm => h (by simp [hm]))]
          simp

theorem splitAux_append : ∀ t acc r : List Char, ',' ∉ t →
    splitAux acc (t ++ ',' :: ' ' :: r) = (acc.reverse ++ t) :: splitAux [] r := by
  intro t
  induction t with
  | nil => intro acc r _; simp [splitAux]
  | cons c cs ih =>
      intro acc r h
      have hc : c ≠ ',' := fun hm => h (by simp [hm])
      cases cs with
      | nil =>
          rw [List.cons_append, List.nil_append, splitAux, if_neg (by simp [hc]),
            splitAux, if_pos ⟨rfl, rfl⟩]
          simp
      | cons d ds =>
          rw [List.cons_append, List.cons_append, splitAux, if_neg (by simp [hc]),
            ← List.cons_append, ih (c :: acc) r (fun hm => h (by simp [hm]))]
          simp

theorem splitCommaSpace_join (ts : List (List Char)) (hne : ts ≠ [])
    (h : ∀ t ∈ ts, ',' ∉ t) : splitCommaSpace (joinCommaSpace ts) = ts := by
  induction ts with
  | nil => exact absurd rfl hne
  | cons t ts ih =>
      cases ts with
      | nil =>
          rw [joinCommaSpace, splitCommaSpace, splitAux_of_noComma t [] (h t (by simp))]
          simp
      | cons t' ts' =>
          have hjoin : joinCommaSpace (t :: t' :: ts') =
              t ++ ',' :: ' ' :: joinCommaSpace (t' :: ts') := rfl
          rw [hjoin, splitCommaSpace, splitAux_append t [] _ (h t (by simp))]
          simp only [List.reverse_nil, List.nil_append]
          exact congrArg (t :: ·)
            (ih (by simp) (fun u hu => h u (by simp [hu])))

theorem parseIntList_none_of_mem {ts : List (List Char)} {tok : List Char}
    (hx : tok ∈ ts) (hf : pyIntOfStr tok = none) : parseIntList ts = none := by
  induction ts with
  | nil => cases hx
  | cons t ts ih =>
      rcases List.mem_cons.mp hx with rfl | hx'
      · rw [parseIntList, hf]
      · rw [parseIntList]
        cases ht : pyIntOfStr t
        · rfl
        · rw [ih hx']; rfl

theorem parseIntList_map_pyStrOfInt (l : List Int) :
    parseIntList (l.map pyStrOfInt) = some l := by
  induction l with
  | nil => rfl
  | cons k l ih => rw [List.map_cons, parseIntList, pyIntOfStr_pyStrOfInt, ih]; rfl

theorem splitCS_dezenasStrOf (l : List Int) (h : l ≠ []) :
    splitCommaSpace (dezenasStrOf l) = l.map pyStrOfInt := by
  unfold dezenasStrOf
  apply splitCommaSpace_join
  · simp [h]
  · intro t ht
    simp only [List.mem_map] at ht
    obtain ⟨k, _, rfl⟩ := ht
    intro hc
    exact pyStrOfInt_noComma hc rfl

theorem convert_string_to_list_mongodb_roundtrip (l : List Int) (h : l ≠ []) :
    DataFrameManagerMongoDB.convert_string_to_list (PyVal.vstr (dezenasStrOf l))
      = Except.ok (l.map PyScalar.sint) := by
  show (match parseIntList (splitCommaSpace (dezenasStrOf l)) with
    | some ns => Except.ok (ns.map PyScalar.sint)
    | none => Except.error ['V', 'a', 'l', 'u', 'e', 'E', 'r', 'r', 'o', 'r'])
    = Except.ok (l.map PyScalar.sint)
  rw [splitCS_dezenasStrOf l h, parseIntList_map_pyStrOfInt]

theorem literalEvalList_dezenasStrOf_two (l : List Int) (h : 2 ≤ l.length) :
    literalEvalList (dezenasStrOf l) = Except.ok (PyVal.vtuple (l.map PyScalar.sint)) := by
  unfold literalEvalList
  have hne : l ≠ [] := by intro h0; subst h0; simp at h
  rw [splitCS_dezenasStrOf l hne, parseIntList_map_pyStrOfInt]
  match l, h with
  | a :: b :: rest, _ => rfl

/-- C9 counterexample: serializing the single-element list `[5]` with the
tabular serializer and parsing it back with the tabular loader's
`convert_string_to_list` (i.e. `ast.literal_eval`) yields the bare integer
`5`, not a collection of integers — the claimed round trip fails for
single-element lists. -/
theorem round_trip_single_element_not_collection :
    DataFrameManager.convert_string_to_list
        [⟨2500, [], PyVal.vstr (dezenasStrOf [5])⟩]
      = Except.ok [⟨2500, [], PyVal.vint 5⟩] ∧
    isCollectionVal (PyVal.vint 5) = false :=
  ⟨rfl, rfl⟩

/-- C9 amended: serializing a non-empty list of integers to the tabular
`", "`-joined form and parsing it back with the document backend's
`convert_string_to_list` recovers exactly the original integers in order;
parsing it back with the tabular loader's `convert_string_to_list`
(`ast.literal_eval`) recovers them as a tuple whenever the list has at least
two elements (a single-element list parses to a bare integer instead). -/
theorem round_trip_amended :
    (∀ l : List Int, l ≠ [] →
      DataFrameManagerMongoDB.convert_string_to_list (PyVal.vstr (dezenasStrOf l))
        = Except.ok (l.map PyScalar.sint)) ∧
    (∀ (l : List Int) (c : Int) (d : List Char), 2 ≤ l.length →
      DataFrameManager.convert_string_to_list [⟨c, d, PyVal.vstr (dezenasStrOf l)⟩]
        = Except.ok [⟨c, d, PyVal.vtuple (l.map PyScalar.sint)⟩]) := by
  constructor
  · exact convert_string_to_list_mongodb_roundtrip
  · intro l c d h
    rw [DataFrameManager.convert_string_to_list]
    show (do
      let cell ← (literalEvalList (dezenasStrOf l)).map
        (fun v => ({ concurso := c, data := d, dezenas := v } : Row))
      let rest' ← DataFrameManager.convert_string_to_list []
      Except.ok (cell :: rest')) = _
    rw [literalEvalList_dezenasStrOf_two l h]
    rfl

/-- Witness for `round_trip_amended` at the concrete lists `[7]` and `[3, 14]`. -/
theorem round_trip_amended_witness :
    DataFrameManagerMongoDB.convert_string_to_list (PyVal.vstr (dezenasStrOf [7]))
      = Except.ok [PyScalar.sint 7] ∧
    DataFrameManager.convert_string_to_list [⟨1, [], PyVal.vstr (dezenasStrOf [3, 14])⟩]
      = Except.ok [⟨1, [], PyVal.vtuple [PyScalar.sint 3, PyScalar.sint 14]⟩] :=
  ⟨round_trip_amended.1 [7] (by simp),
   round_trip_amended.2 [3, 14] 1 [] (by simp)⟩

/-- C6 counterexample: when reading the Excel file raises an exception other
than `pandas.errors.EmptyDataError` (for example a `PermissionError`),
`read_or_create_dataframe` does not return an empty collection — the
exception propagates to the caller. -/
theorem read_or_create_dataframe_other_error_propagates :
    DataFrameManager.read_or_create_dataframe
        (DataFrameManager.ExcelStore.otherError
          ['P', 'e', 'r', 'm', 'i', 's', 's', 'i', 'o', 'n', 'E', 'r', 'r', 'o', 'r'])
      = Except.error
          ['P', 'e', 'r', 'm', 'i', 's', 's', 'i', 'o', 'n', 'E', 'r', 'r', 'o', 'r'] :=
  rfl

/-- C6 amended: the tabular load returns an empty collection when the backing
file is absent or reading it raises `pandas.errors.EmptyDataError` (but only
that exception is caught), and the document load returns the empty list
whenever the driver raises any `PyMongoError`. -/
theorem load_degrades_to_empty_amended :
    DataFrameManager.read_or_create_dataframe DataFrameManager.ExcelStore.absent
      = Except.ok [] ∧
    (∀ m, DataFrameManager.read_or_create_dataframe
        (DataFrameManager.ExcelStore.emptyDataError m) = Except.ok []) ∧
    (∀ m b, DataFrameManagerMongoDB.read_or_create_data_from_mongodb
        (DataFrameManagerMongoDB.MongoConn.pyMongoError m) b
      = DataFrameManagerMongoDB.MongoReadResult.rlist []) :=
  ⟨rfl, fun _ => rfl, fun _ _ => rfl⟩

/-- C7 counterexample: a `dezenas` value that is neither a string nor a list
(here the integer `7`) makes the document backend's `convert_string_to_list`
return the empty list as a substitute value instead of raising a
malformed-record failure. -/
theorem convert_string_to_list_substitutes_empty :
    DataFrameManagerMongoDB.convert_string_to_list (PyVal.vint 7) = Except.ok [] :=
  rfl

/-- C7 amended: a numbers field that is an unparsable string raises an
explicit `ValueError` in the document backend, and a payload whose numbers
field cannot be parsed makes the tabular merge raise rather than skip the
payload; but a numbers field that is neither a string nor a list is replaced
by the empty list (a substitute value, only logged) by the document backend's
`convert_string_to_list` instead of raising. -/
theorem malformed_numbers_amended :
    (∀ v : PyVal, (∀ s, v ≠ PyVal.vstr s) → (∀ l, v ≠ PyVal.vlist l) →
      DataFrameManagerMongoDB.convert_string_to_list v = Except.ok []) ∧
    (∀ (s tok : List Char), tok ∈ splitCommaSpace s → pyIntOfStr tok = none →
      DataFrameManagerMongoDB.convert_string_to_list (PyVal.vstr s)
        = Except.error ['V', 'a', 'l', 'u', 'e', 'E', 'r', 'r', 'o', 'r']) ∧
    (∀ (df : List Row) (p : Payload) (e : List Char),
      parseDezenas p.dezenas = Except.error e →
      DataFrameManager.update_dataframe df [p] = Except.error e) := by
  refine ⟨?_, ?_, ?_⟩
  · intro v hs hl
    cases v with
    | vstr s => exact absurd rfl (hs s)
    | vlist l => exact absurd rfl (hl l)
    | vtuple l => rfl
    | vint n => rfl
    | vnone => rfl
  · intro s tok htok hnone
    show (match parseIntList (splitCommaSpace s) with
      | some ns => Except.ok (ns.map PyScalar.sint)
      | none => Except.error ['V', 'a', 'l', 'u', 'e', 'E', 'r', 'r', 'o', 'r'])
      = Except.error ['V', 'a', 'l', 'u', 'e', 'E', 'r', 'r', 'o', 'r']
    rw [parseIntList_none_of_mem htok hnone]
  · intro df p e herr
    rw [DataFrameManager.update_dataframe, herr]
    rfl

/-- Witness for `malformed_numbers_amended`: `None` is substituted by `[]`,
the string `"a"` raises `ValueError`, and a payload whose `dezenas` is `None`
makes the tabular merge raise `TypeError`. -/
theorem malformed_numbers_amended_witness :
    DataFrameManagerMongoDB.convert_string_to_list PyVal.vnone = Except.ok [] ∧
    DataFrameManagerMongoDB.convert_string_to_list (PyVal.vstr ['a'])
      = Except.error ['V', 'a', 'l', 'u', 'e', 'E', 'r', 'r', 'o', 'r'] ∧
    DataFrameManager.update_dataframe [] [⟨2500, [], PyVal.vnone⟩]
      = Except.error ['T', 'y', 'p', 'e', 'E', 'r', 'r', 'o', 'r'] :=
  ⟨malformed_numbers_amended.1 PyVal.vnone (fun _ h => PyVal.noConfusion h)
      (fun _ h => PyVal.noConfusion h),
   malformed_numbers_amended.2.1 ['a'] ['a'] (by decide) (by decide),
   malformed_numbers_amended.2.2 [] ⟨2500, [], PyVal.vnone⟩ _ rfl⟩

/-- C10: for every state of the document store, reading with
`dataframe = False` returns the empty list even when the results collection
contains documents, and consequently the list `update_dataframe_mongodb`
builds and returns does not depend on the stored draw history at all. -/
theorem read_false_ignores_store :
    (∀ docs : List MDoc,
      DataFrameManagerMongoDB.read_or_create_data_from_mongodb
          (DataFrameManagerMongoDB.MongoConn.ok docs) false
        = DataFrameManagerMongoDB.MongoReadResult.rlist []) ∧
    (∀ (store store' : List MDoc) (lottery_data : List Payload),
      (DataFrameManagerMongoDB.update_dataframe_mongodb store lottery_data).map Prod.snd
        = (DataFrameManagerMongoDB.update_dataframe_mongodb store' lottery_data).map
            Prod.snd) := by
  constructor
  · intro docs; rfl
  · intro store store' B
    show ((DataFrameManagerMongoDB.appendLoop [] B).bind
        (fun ex => Except.ok (DataFrameManagerMongoDB.update_data_to_mongodb store ex, ex))).map
        Prod.snd
      = ((DataFrameManagerMongoDB.appendLoop [] B).bind
        (fun ex => Except.ok (DataFrameManagerMongoDB.update_data_to_mongodb store' ex, ex))).map
        Prod.snd
    cases DataFrameManagerMongoDB.appendLoop [] B <;> rfl

theorem drawNotIn_full_range_none {rand : Nat → Nat}
    (hrand : ∀ j, 1 ≤ rand j ∧ rand j ≤ 25) :
    ∀ f i, MLPModelOperations.drawNotIn (List.range' 1 25) rand i f = none := by
  intro f
  induction f with
  | zero => intro i; rfl
  | succ f ih =>
      intro i
      have hm : rand i ∈ List.range' 1 25 := by
        rw [List.mem_range'_1]
        obtain ⟨h1, h2⟩ := hrand i
        omega
      simp only [MLPModelOperations.drawNotIn, hm, if_true]
      exact ih (i + 1)

/-- C5 (the code side of the claim): when `fixed_numbers` covers all of
`[1, 25]`, every `randint(1, 25)` draw lies in `fixed_numbers`, so the inner
retry loop of `generate_final_combinations` never exits: for every amount of
fuel the loop fails to terminate (`none`), and no generation-exhausted error
is ever produced — the code loops indefinitely instead of bounding retries. -/
theorem generate_final_combinations_full_range_never_terminates
    (rand : Nat → Nat) (fuel : Nat) (hrand : ∀ j, 1 ≤ rand j ∧ rand j ≤ 25) :
    MLPModelOperations.generate_final_combinations (List.range' 1 25) rand fuel
      = none := by
  unfold MLPModelOperations.generate_final_combinations
  cases fuel with
  | zero => rfl
  | succ f =>
      rw [MLPModelOperations.genLoop]
      rw [if_pos (by simp [VARIABLES_prediction_count])]
      rw [drawNotIn_full_range_none hrand (f + 1) 0]

/-- Witness for `generate_final_combinations_full_range_never_terminates` at
the constant stream `1` and fuel `7`. -/
theorem generate_final_combinations_full_range_witness :
    MLPModelOperations.generate_final_combinations (List.range' 1 25)
      (fun _ => 1) 7 = none :=
  generate_final_combinations_full_range_never_terminates (fun _ => 1) 7
    (fun _ => ⟨Nat.le_refl 1, by show (1 : Nat) ≤ 25; omega⟩)

theorem padLoop_spec {rand : Nat → Nat} (hrand : ∀ j, 1 ≤ rand j ∧ rand j ≤ 25) :
    ∀ (fuel i : Nat) (pool out : List Nat),
      pool.Nodup → pool.length ≤ 14 → (∀ x ∈ pool, 1 ≤ x ∧ x ≤ 25) →
      MLPModelOperations.padLoop rand i fuel pool = some out →
      out.length = 14 ∧ out.Nodup ∧ ∀ x ∈ out, 1 ≤ x ∧ x ≤ 25 := by
  intro fuel
  induction fuel with
  | zero => intro i pool out _ _ _ h; simp [MLPModelOperations.padLoop] at h
  | succ f ih =>
      intro i pool out hnd hlen hbd h
      rw [MLPModelOperations.padLoop] at h
      by_cases hc : pool.length < 14
      · rw [if_pos hc] at h
        by_cases hmem : rand i ∈ pool
        · simp only [hmem, if_true] at h
          exact ih (i + 1) pool out hnd hlen hbd h
        · simp only [hmem, if_false] at h
          refine ih (i + 1) (pool ++ [rand i]) out ?_ ?_ ?_ h
          · simp [List.nodup_append, hnd, hmem]
          · simp; omega
          · intro x hx
            rcases List.mem_append.mp hx with hx' | hx'
            · exact hbd x hx'
            · simp at hx'; subst hx'; exact hrand i
      · rw [if_neg hc] at h
        cases h
        exact ⟨by omega, hnd, hbd⟩

/-- C8: whenever `generate_random_numbers` terminates, its result is a list
of exactly 14 pairwise-distinct integers each in `[1, 25]` — the clipped
argsort ranking is deduplicated and, when fewer than 14 distinct numbers
remain, padded with random numbers in `[1, 25]` not already in the pool
until exactly 14 are present. -/
theorem generate_random_numbers_spec (scores : List Rat) (rand : Nat → Nat)
    (fuel : Nat) (out : List Nat) (hrand : ∀ j, 1 ≤ rand j ∧ rand j ≤ 25)
    (h : MLPModelOperations.generate_random_numbers scores rand fuel = some out) :
    out.length = 14 ∧ out.Nodup ∧ ∀ x ∈ out, 1 ≤ x ∧ x ≤ 25 := by
  unfold MLPModelOperations.generate_random_numbers at h
  refine padLoop_spec hrand fuel 0 _ out (List.nodup_dedup _) ?_ ?_ h
  · calc (((MLPModelOperations.argsortDesc scores).take 14).map
          (fun i => MLPModelOperations.np_clip (i + 1) 1 25)).dedup.length
        ≤ (((MLPModelOperations.argsortDesc scores).take 14).map
          (fun i => MLPModelOperations.np_clip (i + 1) 1 25)).length :=
          (List.dedup_sublist _).length_le
      _ = ((MLPModelOperations.argsortDesc scores).take 14).length := List.length_map _ _
      _ ≤ 14 := by rw [List.length_take]; exact Nat.min_le_left _ _
  · intro x hx
    rw [List.mem_dedup] at hx
    obtain ⟨i, _, rfl⟩ := List.mem_map.mp hx
    unfold MLPModelOperations.np_clip
    constructor
    · exact Nat.le_min.mpr ⟨by omega, Nat.le_max_left 1 _⟩
    · exact Nat.min_le_left _ _

/-- Witness for `generate_random_numbers_spec`: with an empty score vector
and the stream `j % 25 + 1`, the padding loop fills the pool to `[1, ..., 14]`. -/
theorem generate_random_numbers_spec_witness :
    MLPModelOperations.generate_random_numbers [] (fun j => j % 25 + 1) 20
      = some (List.range' 1 14) ∧
    (List.range' 1 14).length = 14 := by
  have heq : MLPModelOperations.generate_random_numbers [] (fun j => j % 25 + 1) 20
      = some (List.range' 1 14) := by decide
  have hspec := generate_random_numbers_spec [] (fun j => j % 25 + 1) 20
    (List.range' 1 14)
    (fun j => ⟨by show 1 ≤ j % 25 + 1; omega, by show j % 25 + 1 ≤ 25; omega⟩) heq
  exact ⟨heq, hspec.1⟩

theorem drawNotIn_spec {fixed : List Nat} {rand : Nat → Nat}
    (hrand : ∀ j, 1 ≤ rand j ∧ rand j ≤ 25) :
    ∀ (f i r j : Nat), MLPModelOperations.drawNotIn fixed rand i f = some (r, j) →
      r ∉ fixed ∧ 1 ≤ r ∧ r ≤ 25 := by
  intro f
  induction f with
  | zero => intro i r j h; simp [MLPModelOperations.drawNotIn] at h
  | succ f ih =>
      intro i r j h
      rw [MLPModelOperations.drawNotIn] at h
      by_cases hm : rand i ∈ fixed
      · simp only [hm, if_true] at h
        exact ih _ _ _ h
      · simp only [hm, if_false] at h
        simp only [Option.some.injEq, Prod.mk.injEq] at h
        obtain ⟨rfl, -⟩ := h
        exact ⟨hm, hrand i⟩

theorem genLoop_spec {fixed : List Nat} {rand : Nat → Nat}
    (hrand : ∀ j, 1 ≤ rand j ∧ rand j ≤ 25) :
    ∀ (fuel i : Nat) (acc out : List (List Nat)),
      (∀ c ∈ acc, ∃ r, r ∉ fixed ∧ 1 ≤ r ∧ r ≤ 25 ∧ c = fixed ++ [r]) →
      acc.Nodup → acc.length ≤ VARIABLES_prediction_count →
      MLPModelOperations.genLoop fixed rand i fuel acc = some out →
      out.length = VARIABLES_prediction_count ∧ out.Nodup ∧
      ∀ c ∈ out, ∃ r, r ∉ fixed ∧ 1 ≤ r ∧ r ≤ 25 ∧ c = fixed ++ [r] := by
  intro fuel
  induction fuel with
  | zero => intro i acc out _ _ _ h; simp [MLPModelOperations.genLoop] at h
  | succ f ih =>
      intro i acc out hmem hnd hle h
      rw [MLPModelOperations.genLoop] at h
      by_cases hc : acc.length < VARIABLES_prediction_count
      · rw [if_pos hc] at h
        cases hd : MLPModelOperations.drawNotIn fixed rand i (f + 1) with
        | none => rw [hd] at h; cases h
        | some p =>
            obtain ⟨r, j⟩ := p
            rw [hd] at h
            obtain ⟨hr, hr1, hr2⟩ := drawNotIn_spec hrand (f + 1) i r j hd
            by_cases hin : fixed ++ [r] ∈ acc
            · simp only [hin, if_true] at h
              exact ih j acc out hmem hnd hle h
            · simp only [hin, if_false] at h
              refine ih j (acc ++ [fixed ++ [r]]) out ?_ ?_ ?_ h
              · intro c hcm
                rcases List.mem_append.mp hcm with hcm' | hcm'
                · exact hmem c hcm'
                · simp at hcm'; subst hcm'; exact ⟨r, hr, hr1, hr2, rfl⟩
              · simp [List.nodup_append, hnd, hin]
              · simp; omega
      · rw [if_neg hc] at h
        cases h
        exact ⟨by omega, hnd, hmem⟩

/-- C4: whenever `generate_final_combinations` terminates on a list of 11
distinct fixed numbers in `[1, 25]`, it returns exactly `prediction_count`
(= 11) combinations, pairwise distinct as unordered sets, each of 12
distinct elements, each containing all 11 fixed numbers plus exactly one
extra number in `[1, 25]` outside the fixed numbers. -/
theorem generate_final_combinations_spec (fixed : List Nat) (rand : Nat → Nat)
    (fuel : Nat) (out : List (List Nat))
    (hfix : fixed.Nodup) (hlen : fixed.length = 11)
    (hrand : ∀ j, 1 ≤ rand j ∧ rand j ≤ 25)
    (h : MLPModelOperations.generate_final_combinations fixed rand fuel = some out) :
    out.length = VARIABLES_prediction_count ∧
    List.Pairwise (fun c d => c.toFinset ≠ d.toFinset) out ∧
    ∀ c ∈ out, c.length = 12 ∧ c.Nodup ∧ (∀ x ∈ fixed, x ∈ c) ∧
      ∃ r, r ∉ fixed ∧ 1 ≤ r ∧ r ≤ 25 ∧ c = fixed ++ [r] := by
  obtain ⟨hl, hnd, hform⟩ := genLoop_spec hrand fuel 0 [] out (by simp) List.nodup_nil
    (by simp) h
  refine ⟨hl, ?_, ?_⟩
  · refine hnd.imp_of_mem ?_
    intro c d hcm hdm hne
    obtain ⟨r, hrni, hr1, hr2, rfl⟩ := hform c hcm
    obtain ⟨s, hsni, hs1, hs2, rfl⟩ := hform d hdm
    have hrs : r ≠ s := fun he => hne (by rw [he])
    intro hset
    have hrmem : r ∈ (fixed ++ [s]).toFinset := by rw [← hset]; simp
    simp only [List.toFinset_append, Finset.mem_union, List.mem_toFinset,
      List.toFinset_cons, List.toFinset_nil] at hrmem
    rcases hrmem with hrmem | hrmem
    · exact hrni hrmem
    · simp at hrmem; exact hrs hrmem
  · intro c hc
    obtain ⟨r, hrni, hr1, hr2, rfl⟩ := hform c hc
    refine ⟨by simp [hlen], ?_, fun x hx => by simp [hx], r, hrni, hr1, hr2, rfl⟩
    simp [List.nodup_append, hfix, hrni]

/-- Witness for `generate_final_combinations_spec`: with fixed numbers
`[1, ..., 11]` and the stream `12 + j % 14`, the generator returns the 11
combinations `[1..11] ++ [r]` for `r = 12, ..., 22`. -/
theorem generate_final_combinations_spec_witness :
    MLPModelOperations.generate_final_combinations (List.range' 1 11)
        (fun j => 12 + j % 14) 20
      = some ((List.range' 12 11).map (fun r => List.range' 1 11 ++ [r])) ∧
    ((List.range' 12 11).map (fun r => List.range' 1 11 ++ [r])).length
      = VARIABLES_prediction_count := by
  have heq : MLPModelOperations.generate_final_combinations (List.range' 1 11)
      (fun j => 12 + j % 14) 20
      = some ((List.range' 12 11).map (fun r => List.range' 1 11 ++ [r])) := by decide
  have hspec := generate_final_combinations_spec (List.range' 1 11)
    (fun j => 12 + j % 14) 20 _ (by decide) (by decide)
    (fun j => ⟨by show 1 ≤ 12 + j % 14; omega, by show 12 + j % 14 ≤ 25; omega⟩) heq
  exact ⟨heq, hspec.1⟩

theorem any_key_iff (df : List Row) (c : Int) :
    (df.any (fun r => r.concurso = c) = true) ↔ c ∈ keysOf df := by
  rw [List.any_eq_true]
  unfold keysOf
  rw [List.mem_map]
  constructor
  · rintro ⟨r, hr, hrc⟩
    exact ⟨r, hr, by simpa using hrc⟩
  · rintro ⟨r, hr, hrc⟩
    exact ⟨r, hr, by simpa using hrc⟩

theorem update_dataframe_eq_updatePure :
    ∀ (B : List Payload) (df : List Row),
      DataFrameManager.update_dataframe df B
        = (parseBatch B).map (fun ts => updatePure df ts) := by
  intro B
  induction B with
  | nil => intro df; rfl
  | cons p ps ih =>
      intro df
      rw [DataFrameManager.update_dataframe, parseBatch]
      cases hp : parseDezenas p.dezenas with
      | error e => rw [show parseTriple p = Except.error e by rw [parseTriple, hp]; rfl]; rfl
      | ok ints =>
          rw [show parseTriple p
            = Except.ok (p.concurso, p.data, dezenasStrOf ints) by
              rw [parseTriple, hp]; rfl]
          show DataFrameManager.update_dataframe (merge1 df (p.concurso, p.data, dezenasStrOf ints)) ps
            = ((parseBatch ps).bind (fun ts =>
                Except.ok ((p.concurso, p.data, dezenasStrOf ints) :: ts))).map
                (fun ts => updatePure df ts)
          rw [ih]
          cases parseBatch ps <;> rfl

theorem keysOf_map_ow (df : List Row) (k : Int) (d ds : List Char) :
    keysOf (df.map (owRow k d ds)) = keysOf df := by
  unfold keysOf
  rw [List.map_map]
  apply List.map_congr_left
  intro r _
  show (owRow k d ds r).concurso = r.concurso
  unfold owRow
  split <;> rfl

theorem owRow_of_eq {k : Int} {d ds : List Char} {r : Row} (h : r.concurso = k) :
    owRow k d ds r = ⟨r.concurso, d, PyVal.vstr ds⟩ := by
  unfold owRow; rw [if_pos h]

theorem owRow_of_ne {k : Int} {d ds : List Char} {r : Row} (h : ¬r.concurso = k) :
    owRow k d ds r = r := by
  unfold owRow; rw [if_neg h]

theorem merge1_of_mem {df : List Row} {t : Int × List Char × List Char}
    (h : t.1 ∈ keysOf df) : merge1 df t = df.map (owRow t.1 t.2.1 t.2.2) := by
  unfold merge1
  rw [if_pos ((any_key_iff df t.1).mpr h)]

theorem merge1_of_not_mem {df : List Row} {t : Int × List Char × List Char}
    (h : t.1 ∉ keysOf df) :
    merge1 df t = df ++ [⟨t.1, t.2.1, PyVal.vstr t.2.2⟩] := by
  unfold merge1
  rw [if_neg (fun hc => h ((any_key_iff df t.1).mp hc))]

theorem mem_keysOf_merge1_self (df : List Row) (t : Int × List Char × List Char) :
    t.1 ∈ keysOf (merge1 df t) := by
  by_cases h : t.1 ∈ keysOf df
  · rw [merge1_of_mem h, keysOf_map_ow]; exact h
  · rw [merge1_of_not_mem h]
    unfold keysOf
    simp

theorem keysOf_merge1_mono {df : List Row} {k : Int}
    (t : Int × List Char × List Char) (h : k ∈ keysOf df) :
    k ∈ keysOf (merge1 df t) := by
  by_cases hm : t.1 ∈ keysOf df
  · rw [merge1_of_mem hm, keysOf_map_ow]; exact h
  · rw [merge1_of_not_mem hm]
    unfold keysOf at *
    simp only [List.map_append, List.mem_append]
    exact Or.inl h

theorem keysOf_updatePure_mono :
    ∀ (ts : List (Int × List Char × List Char)) (df : List Row) (k : Int),
      k ∈ keysOf df → k ∈ keysOf (updatePure df ts) := by
  intro ts
  induction ts with
  | nil => intro df k h; exact h
  | cons t ts ih =>
      intro df k h
      exact ih (merge1 df t) k (keysOf_merge1_mono t h)

theorem merge1_keyed_self (df : List Row) (t : Int × List Char × List Char) :
    ∀ r ∈ merge1 df t, r.concurso = t.1 →
      r.data = t.2.1 ∧ r.dezenas = PyVal.vstr t.2.2 := by
  by_cases hm : t.1 ∈ keysOf df
  · rw [merge1_of_mem hm]
    intro r hr hk
    obtain ⟨r0, hr0, rfl⟩ := List.mem_map.mp hr
    by_cases h0 : r0.concurso = t.1
    · rw [owRow_of_eq h0]
      exact ⟨rfl, rfl⟩
    · rw [owRow_of_ne h0] at hk
      exact absurd hk h0
  · rw [merge1_of_not_mem hm]
    intro r hr hk
    rcases List.mem_append.mp hr with hr' | hr'
    · exact absurd (hk ▸ List.mem_map_of_mem Row.concurso hr') hm
    · simp at hr'; subst hr'; exact ⟨rfl, rfl⟩

theorem updatePure_keyed_preserved :
    ∀ (ts : List (Int × List Char × List Char)) (X : List Row) (k : Int)
      (d ds : List Char), k ∉ batchKeys ts →
      (∀ r ∈ X, r.concurso = k → r.data = d ∧ r.dezenas = PyVal.vstr ds) →
      ∀ r ∈ updatePure X ts, r.concurso = k →
        r.data = d ∧ r.dezenas = PyVal.vstr ds := by
  intro ts
  induction ts with
  | nil => intro X k d ds _ hX; exact hX
  | cons t ts ih =>
      intro X k d ds hk hX
      have hkt : k ≠ t.1 := by
        intro he; exact hk (by rw [batchKeys, List.map_cons, he]; simp)
      have hk' : k ∉ batchKeys ts := fun hm => hk (by rw [batchKeys, List.map_cons]; simp [batchKeys] at hm; simp [hm])
      refine ih (merge1 X t) k d ds hk' ?_
      intro r hr hrk
      by_cases hm : t.1 ∈ keysOf X
      · rw [merge1_of_mem hm] at hr
        obtain ⟨r0, hr0, rfl⟩ := List.mem_map.mp hr
        by_cases h0 : r0.concurso = t.1
        · exfalso
          rw [owRow_of_eq h0] at hrk
          have hk2 : r0.concurso = k := hrk
          omega
        · rw [owRow_of_ne h0] at hrk ⊢
          exact hX r0 hr0 hrk
      · rw [merge1_of_not_mem hm] at hr
        rcases List.mem_append.mp hr with hr' | hr'
        · exact hX r hr' hrk
        · simp at hr'; subst hr'
          have hk2 : t.1 = k := hrk
          exact absurd hk2.symm hkt

theorem forall₂_rowRel_keysOf {ks : List Int} :
    ∀ {X Y : List Row}, List.Forall₂ (rowRel ks) X Y → keysOf X = keysOf Y := by
  intro X Y h
  induction h with
  | nil => rfl
  | cons hr _ ih =>
      unfold keysOf at *
      simp only [List.map_cons, ih, hr.1]

theorem forall₂_append_single {R : Row → Row → Prop} {a b : Row} :
    ∀ {X Y : List Row}, List.Forall₂ R X Y → R a b →
      List.Forall₂ R (X ++ [a]) (Y ++ [b]) := by
  intro X Y h hab
  induction h with
  | nil => exact List.Forall₂.cons hab List.Forall₂.nil
  | cons hr _ ih => exact List.Forall₂.cons hr ih

theorem forall₂_rowRel_nil_eq : ∀ {X Y : List Row},
    List.Forall₂ (rowRel []) X Y → X = Y := by
  intro X Y h
  induction h with
  | nil => rfl
  | cons hr _ ih =>
      rcases hr.2 with heq | hmem
      · rw [heq, ih]
      · cases hmem

theorem forall₂_rowRel_descend {k : Int} {ks : List Int} :
    ∀ {X Y : List Row}, List.Forall₂ (rowRel (k :: ks)) X Y →
      (∀ x ∈ X, x.concurso ≠ k) → List.Forall₂ (rowRel ks) X Y := by
  intro X Y h
  induction h with
  | nil => intro _; exact List.Forall₂.nil
  | @cons x y X' Y' hr _ ih =>
      intro hne
      refine List.Forall₂.cons ⟨hr.1, ?_⟩ (ih (fun z hz => hne z (by simp [hz])))
      rcases hr.2 with heq | hmem
      · exact Or.inl heq
      · rcases List.mem_cons.mp hmem with heq' | hmem'
        · exact absurd heq' (hne x (by simp))
        · exact Or.inr hmem'

theorem forall₂_rowRel_map_ow {k : Int} {ks : List Int} {d ds : List Char} :
    ∀ {X Y : List Row}, List.Forall₂ (rowRel (k :: ks)) X Y →
      List.Forall₂ (rowRel ks) (X.map (owRow k d ds)) (Y.map (owRow k d ds)) := by
  intro X Y h
  induction h with
  | nil => exact List.Forall₂.nil
  | @cons x y X' Y' hr _ ih =>
      rw [List.map_cons, List.map_cons]
      refine List.Forall₂.cons ?_ ih
      rcases hr.2 with heq | hmem
      · exact ⟨by rw [heq], Or.inl (by rw [heq])⟩
      · by_cases hx : x.concurso = k
        · have hy : y.concurso = k := hr.1 ▸ hx
          rw [owRow_of_eq hx, owRow_of_eq hy]
          exact ⟨hr.1, Or.inl (by rw [hr.1])⟩
        · have hy : ¬y.concurso = k := fun he => hx (hr.1.symm ▸ he)
          rw [owRow_of_ne hx, owRow_of_ne hy]
          rcases List.mem_cons.mp hmem with heq' | hmem'
          · exact absurd heq' hx
          · exact ⟨hr.1, Or.inr hmem'⟩

theorem updatePure_congr_touched :
    ∀ (ts : List (Int × List Char × List Char)) (X Y : List Row),
      List.Forall₂ (rowRel (batchKeys ts)) X Y → updatePure X ts = updatePure Y ts := by
  intro ts
  induction ts with
  | nil => intro X Y h; rw [forall₂_rowRel_nil_eq h]
  | cons t ts ih =>
      intro X Y h
      have hbk : batchKeys (t :: ts) = t.1 :: batchKeys ts := rfl
      rw [hbk] at h
      show updatePure (merge1 X t) ts = updatePure (merge1 Y t) ts
      have hkeys : keysOf X = keysOf Y := forall₂_rowRel_keysOf h
      by_cases hk : t.1 ∈ keysOf X
      · rw [merge1_of_mem hk, merge1_of_mem (hkeys ▸ hk)]
        exact ih _ _ (forall₂_rowRel_map_ow h)
      · rw [merge1_of_not_mem hk, merge1_of_not_mem (hkeys ▸ hk)]
        refine ih _ _ (forall₂_append_single ?_ ⟨rfl, Or.inl rfl⟩)
        refine forall₂_rowRel_descend h ?_
        intro x hx he
        exact hk (he ▸ List.mem_map_of_mem Row.concurso hx)

theorem forall₂_rowRel_ow_self {k : Int} {ks : List Int} {d ds : List Char}
    (hk : k ∈ ks) : ∀ X : List Row, List.Forall₂ (rowRel ks) (X.map (owRow k d ds)) X := by
  intro X
  induction X with
  | nil => exact List.Forall₂.nil
  | cons r X ih =>
      rw [List.map_cons]
      refine List.Forall₂.cons ?_ ih
      by_cases hr : r.concurso = k
      · rw [owRow_of_eq hr]
        exact ⟨rfl, Or.inr (hr ▸ hk)⟩
      · rw [owRow_of_ne hr]
        exact ⟨rfl, Or.inl rfl⟩

theorem map_ow_fixpoint {E : List Row} {k : Int} {d ds : List Char}
    (h : ∀ r ∈ E, r.concurso = k → r.data = d ∧ r.dezenas = PyVal.vstr ds) :
    E.map (owRow k d ds) = E := by
  have hcongr : ∀ r ∈ E, owRow k d ds r = id r := by
    intro r hr
    by_cases hrk : r.concurso = k
    · obtain ⟨h1, h2⟩ := h r hr hrk
      rw [owRow_of_eq hrk]
      show (⟨r.concurso, d, PyVal.vstr ds⟩ : Row) = r
      rw [← h1, ← h2]
    · exact owRow_of_ne hrk
  rw [List.map_congr_left hcongr, List.map_id]

theorem updatePure_idem :
    ∀ (ts : List (Int × List Char × List Char)) (df : List Row),
      updatePure (updatePure df ts) ts = updatePure df ts := by
  intro ts
  induction ts with
  | nil => intro df; rfl
  | cons t ts ih =>
      intro df
      show updatePure (merge1 (updatePure (merge1 df t) ts) t) ts
        = updatePure (merge1 df t) ts
      have hkeyE : t.1 ∈ keysOf (updatePure (merge1 df t) ts) :=
        keysOf_updatePure_mono ts (merge1 df t) t.1 (mem_keysOf_merge1_self df t)
      rw [merge1_of_mem hkeyE]
      by_cases hbk : t.1 ∈ batchKeys ts
      · calc updatePure ((updatePure (merge1 df t) ts).map (owRow t.1 t.2.1 t.2.2)) ts
            = updatePure (updatePure (merge1 df t) ts) ts :=
              updatePure_congr_touched ts _ _ (forall₂_rowRel_ow_self hbk _)
          _ = updatePure (merge1 df t) ts := ih (merge1 df t)
      · rw [map_ow_fixpoint (updatePure_keyed_preserved ts (merge1 df t) t.1 t.2.1 t.2.2
          hbk (merge1_keyed_self df t))]
        exact ih (merge1 df t)

theorem anyM_key_iff (store : List MDoc) (c : Int) :
    (store.any (fun d => d.concurso = c) = true) ↔ c ∈ keysOfM store := by
  rw [List.any_eq_true]
  unfold keysOfM
  rw [List.mem_map]
  constructor
  · rintro ⟨d, hd, hdc⟩
    exact ⟨d, hd, by simpa using hdc⟩
  · rintro ⟨d, hd, hdc⟩
    exact ⟨d, hd, by simpa using hdc⟩

theorem appendLoop_eq :
    ∀ (B : List Payload) (acc : List MDoc),
      DataFrameManagerMongoDB.appendLoop acc B
        = (convBatch B).map (fun ds => acc ++ ds) := by
  intro B
  induction B with
  | nil =>
      intro acc
      show Except.ok acc = Except.map (fun ds => acc ++ ds) (Except.ok [])
      show Except.ok acc = Except.ok (acc ++ [])
      rw [List.append_nil]
  | cons p ps ih =>
      intro acc
      rw [DataFrameManagerMongoDB.appendLoop, convBatch]
      cases hc : DataFrameManagerMongoDB.convert_string_to_list p.dezenas with
      | error e => rw [show convDoc p = Except.error e by rw [convDoc, hc]; rfl]; rfl
      | ok dz =>
          rw [show convDoc p = Except.ok ⟨p.concurso, p.data, dz⟩ by rw [convDoc, hc]; rfl]
          show DataFrameManagerMongoDB.appendLoop (acc ++ [⟨p.concurso, p.data, dz⟩]) ps
            = ((convBatch ps).bind (fun ds =>
                Except.ok ((⟨p.concurso, p.data, dz⟩ : MDoc) :: ds))).map (fun ds => acc ++ ds)
          rw [ih]
          cases convBatch ps with
          | error e => rfl
          | ok ds => simp; rfl

theorem update_dataframe_mongodb_eq (store : List MDoc) (B : List Payload) :
    DataFrameManagerMongoDB.update_dataframe_mongodb store B
      = (convBatch B).map
          (fun ex => (DataFrameManagerMongoDB.update_data_to_mongodb store ex, ex)) := by
  show (DataFrameManagerMongoDB.appendLoop [] B).bind
      (fun ex => Except.ok (DataFrameManagerMongoDB.update_data_to_mongodb store ex, ex))
    = _
  rw [appendLoop_eq B []]
  cases convBatch B with
  | error e => rfl
  | ok ds => rfl

theorem keysOfM_update_mono :
    ∀ (l : List MDoc) (store : List MDoc) (k : Int), k ∈ keysOfM store →
      k ∈ keysOfM (DataFrameManagerMongoDB.update_data_to_mongodb store l) := by
  intro l
  induction l with
  | nil => intro store k h; exact h
  | cons document rest ih =>
      intro store k h
      show k ∈ keysOfM (DataFrameManagerMongoDB.update_data_to_mongodb
        (if store.any (fun d => d.concurso = document.concurso) then store
         else store ++ [document]) rest)
      by_cases hm : store.any (fun d => d.concurso = document.concurso) = true
      · rw [if_pos hm]
        exact ih store k h
      · rw [if_neg hm]
        refine ih _ k ?_
        unfold keysOfM at *
        simp only [List.map_append, List.mem_append]
        exact Or.inl h

theorem keysOfM_update_mem :
    ∀ (l : List MDoc) (store : List MDoc), ∀ d ∈ l,
      d.concurso ∈ keysOfM (DataFrameManagerMongoDB.update_data_to_mongodb store l) := by
  intro l
  induction l with
  | nil => intro store d hd; cases hd
  | cons document rest ih =>
      intro store d hd
      rcases List.mem_cons.mp hd with rfl | hd'
      · show d.concurso ∈ keysOfM (DataFrameManagerMongoDB.update_data_to_mongodb
          (if store.any (fun x => x.concurso = d.concurso) then store
           else store ++ [d]) rest)
        by_cases hm : store.any (fun x => x.concurso = d.concurso) = true
        · rw [if_pos hm]
          exact keysOfM_update_mono rest store d.concurso ((anyM_key_iff store d.concurso).mp hm)
        · rw [if_neg hm]
          refine keysOfM_update_mono rest _ d.concurso ?_
          unfold keysOfM
          simp
      · show d.concurso ∈ keysOfM (DataFrameManagerMongoDB.update_data_to_mongodb
          (if store.any (fun x => x.concurso = document.concurso) then store
           else store ++ [document]) rest)
        exact ih _ d hd'

theorem update_data_to_mongodb_noop :
    ∀ (l : List MDoc) (S : List MDoc), (∀ d ∈ l, d.concurso ∈ keysOfM S) →
      DataFrameManagerMongoDB.update_data_to_mongodb S l = S := by
  intro l
  induction l with
  | nil => intro S _; rfl
  | cons document rest ih =>
      intro S h
      show DataFrameManagerMongoDB.update_data_to_mongodb
        (if S.any (fun x => x.concurso = document.concurso) then S
         else S ++ [document]) rest = S
      rw [if_pos ((anyM_key_iff S document.concurso).mpr (h document (by simp)))]
      exact ih S (fun d hd => h d (by simp [hd]))

/-- C2: applying the merge twice with the same batch yields the same final
collection as applying it once: for the tabular merge, re-merging a batch
into its own merge result leaves it unchanged; for the document merge, both
the new collection state and the returned list are unchanged. -/
theorem merge_idempotent :
    (∀ (df : List Row) (B : List Payload) (E : List Row),
      DataFrameManager.update_dataframe df B = Except.ok E →
      DataFrameManager.update_dataframe E B = Except.ok E) ∧
    (∀ (store : List MDoc) (B : List Payload) (S R : List MDoc),
      DataFrameManagerMongoDB.update_dataframe_mongodb store B = Except.ok (S, R) →
      DataFrameManagerMongoDB.update_dataframe_mongodb S B = Except.ok (S, R)) := by
  constructor
  · intro df B E h
    rw [update_dataframe_eq_updatePure] at h ⊢
    cases hp : parseBatch B with
    | error e => rw [hp] at h; cases h
    | ok ts =>
        rw [hp] at h
        have hE : updatePure df ts = E := by
          have h' : (Except.ok (updatePure df ts) : Except (List Char) (List Row))
            = Except.ok E := h
          exact Except.ok.inj h'
        show Except.ok (updatePure E ts) = Except.ok E
        rw [← hE, updatePure_idem]
  · intro store B S R h
    rw [update_dataframe_mongodb_eq] at h
    cases hc : convBatch B with
    | error e => rw [hc] at h; cases h
    | ok ds =>
        rw [hc] at h
        have hpair : (DataFrameManagerMongoDB.update_data_to_mongodb store ds, ds)
            = (S, R) := by
          have h' : (Except.ok (DataFrameManagerMongoDB.update_data_to_mongodb store ds, ds)
            : Except (List Char) (List MDoc × List MDoc)) = Except.ok (S, R) := h
          exact Except.ok.inj h'
        have hS : DataFrameManagerMongoDB.update_data_to_mongodb store ds = S :=
          congrArg Prod.fst hpair
        have hR : ds = R := congrArg Prod.snd hpair
        rw [update_dataframe_mongodb_eq, hc]
        show Except.ok (DataFrameManagerMongoDB.update_data_to_mongodb S ds, ds)
          = Except.ok (S, R)
        have hds : ∀ d ∈ ds, d.concurso ∈ keysOfM S := by
          intro d hd
          rw [← hS]
          exact keysOfM_update_mem ds store d hd
        rw [update_data_to_mongodb_noop ds S hds, hR]

/-- Witness for `merge_idempotent`: re-merging the one-payload batch into its
own merge result changes nothing, on both backends. -/
theorem merge_idempotent_witness :
    DataFrameManager.update_dataframe [⟨2500, ['d'], PyVal.vstr ['1']⟩]
        [⟨2500, ['d'], PyVal.vlist [PyScalar.sint 1]⟩]
      = Except.ok [⟨2500, ['d'], PyVal.vstr ['1']⟩] ∧
    DataFrameManagerMongoDB.update_dataframe_mongodb [⟨2500, ['d'], [PyScalar.sint 1]⟩]
        [⟨2500, ['d'], PyVal.vlist [PyScalar.sint 1]⟩]
      = Except.ok ([⟨2500, ['d'], [PyScalar.sint 1]⟩],
          [⟨2500, ['d'], [PyScalar.sint 1]⟩]) :=
  ⟨merge_idempotent.1 [] [⟨2500, ['d'], PyVal.vlist [PyScalar.sint 1]⟩]
      [⟨2500, ['d'], PyVal.vstr ['1']⟩] rfl,
   merge_idempotent.2 [] [⟨2500, ['d'], PyVal.vlist [PyScalar.sint 1]⟩]
      [⟨2500, ['d'], [PyScalar.sint 1]⟩] [⟨2500, ['d'], [PyScalar.sint 1]⟩] rfl⟩

/-- C1 counterexample: merging a payload whose `draw_id` (2500) already exists
in the document store leaves the stored record's `draw_date` and `numbers`
completely unchanged (`update_data_to_mongodb` only inserts missing keys) —
the payload's new date `"2025"` and numbers `[2]` do not replace the stored
`"2024"` and `[1]`. -/
theorem mongodb_merge_does_not_replace :
    DataFrameManagerMongoDB.update_dataframe_mongodb
        [⟨2500, ['2', '0', '2', '4'], [PyScalar.sint 1]⟩]
        [⟨2500, ['2', '0', '2', '5'], PyVal.vlist [PyScalar.sint 2]⟩]
      = Except.ok ([⟨2500, ['2', '0', '2', '4'], [PyScalar.sint 1]⟩],
          [⟨2500, ['2', '0', '2', '5'], [PyScalar.sint 2]⟩]) ∧
    (['2', '0', '2', '4'] : List Char) ≠ ['2', '0', '2', '5'] :=
  ⟨rfl, by decide⟩

/-- C1 amended: for a payload whose `draw_id` already occurs, the tabular
merge replaces the matching rows' `draw_date` and `numbers` with the
payload's values and leaves the number of rows unchanged; the document merge
leaves the stored collection entirely unchanged (insert-if-absent), so its
record count is also unchanged but the stored record keeps its old values. -/
theorem update_existing_draw_amended :
    (∀ (df : List Row) (p : Payload) (ints : List Int),
      parseDezenas p.dezenas = Except.ok ints →
      p.concurso ∈ keysOf df →
      DataFrameManager.update_dataframe df [p]
        = Except.ok (df.map (owRow p.concurso p.data (dezenasStrOf ints))) ∧
      (df.map (owRow p.concurso p.data (dezenasStrOf ints))).length = df.length ∧
      ∀ r ∈ df.map (owRow p.concurso p.data (dezenasStrOf ints)),
        r.concurso = p.concurso →
        r.data = p.data ∧ r.dezenas = PyVal.vstr (dezenasStrOf ints)) ∧
    (∀ (store : List MDoc) (d : MDoc), d.concurso ∈ keysOfM store →
      DataFrameManagerMongoDB.update_data_to_mongodb store [d] = store) := by
  constructor
  · intro df p ints hp hmem
    refine ⟨?_, List.length_map df _, ?_⟩
    · rw [DataFrameManager.update_dataframe, hp]
      show DataFrameManager.update_dataframe
        (merge1 df (p.concurso, p.data, dezenasStrOf ints)) [] = _
      rw [merge1_of_mem hmem]
      rfl
    · have h := merge1_keyed_self df (p.concurso, p.data, dezenasStrOf ints)
      rw [merge1_of_mem hmem] at h
      exact h
  · intro store d hmem
    show DataFrameManagerMongoDB.update_data_to_mongodb
      (if store.any (fun x => x.concurso = d.concurso) then store
       else store ++ [d]) [] = store
    rw [if_pos ((anyM_key_iff store d.concurso).mpr hmem)]
    rfl

/-- Witness for `update_existing_draw_amended`: updating the existing draw
2500 replaces date/numbers in the tabular row and leaves the document store
unchanged. -/
theorem update_existing_draw_amended_witness :
    DataFrameManager.update_dataframe [⟨2500, ['a'], PyVal.vstr ['1']⟩]
        [⟨2500, ['b'], PyVal.vlist [PyScalar.sint 2]⟩]
      = Except.ok [⟨2500, ['b'], PyVal.vstr ['2']⟩] ∧
    DataFrameManagerMongoDB.update_data_to_mongodb [⟨2500, ['a'], [PyScalar.sint 1]⟩]
        [⟨2500, ['b'], [PyScalar.sint 2]⟩]
      = [⟨2500, ['a'], [PyScalar.sint 1]⟩] := by
  constructor
  · have h := (update_existing_draw_amended.1 [⟨2500, ['a'], PyVal.vstr ['1']⟩]
      ⟨2500, ['b'], PyVal.vlist [PyScalar.sint 2]⟩ [2] rfl (by decide)).1
    exact h.trans (by rfl)
  · exact update_existing_draw_amended.2 [⟨2500, ['a'], [PyScalar.sint 1]⟩]
      ⟨2500, ['b'], [PyScalar.sint 2]⟩ (by decide)

theorem keysOf_merge1_nodup {df : List Row} (t : Int × List Char × List Char)
    (h : (keysOf df).Nodup) : (keysOf (merge1 df t)).Nodup := by
  by_cases hm : t.1 ∈ keysOf df
  · rw [merge1_of_mem hm, keysOf_map_ow]; exact h
  · rw [merge1_of_not_mem hm]
    unfold keysOf at *
    rw [List.map_append]
    simp [List.nodup_append, h, hm]

theorem keysOf_updatePure_nodup :
    ∀ (ts : List (Int × List Char × List Char)) (df : List Row),
      (keysOf df).Nodup → (keysOf (updatePure df ts)).Nodup := by
  intro ts
  induction ts with
  | nil => intro df h; exact h
  | cons t ts ih => intro df h; exact ih (merge1 df t) (keysOf_merge1_nodup t h)

theorem keysOfM_update_nodup :
    ∀ (l : List MDoc) (store : List MDoc), (keysOfM store).Nodup →
      (keysOfM (DataFrameManagerMongoDB.update_data_to_mongodb store l)).Nodup := by
  intro l
  induction l with
  | nil => intro store h; exact h
  | cons document rest ih =>
      intro store h
      show (keysOfM (DataFrameManagerMongoDB.update_data_to_mongodb
        (if store.any (fun x => x.concurso = document.concurso) then store
         else store ++ [document]) rest)).Nodup
      by_cases hm : store.any (fun x => x.concurso = document.concurso) = true
      · rw [if_pos hm]
        exact ih store h
      · rw [if_neg hm]
        refine ih _ ?_
        have hnm : document.concurso ∉ keysOfM store :=
          fun hc => hm ((anyM_key_iff store document.concurso).mpr hc)
        unfold keysOfM at hnm h ⊢
        rw [List.map_append]
        simp [List.nodup_append, h, hnm]

/-- C3 counterexample: with an (even empty, hence duplicate-free) existing
store and a batch containing two payloads with the same `draw_id` 2500, the
merged output collection returned by `update_dataframe_mongodb` contains two
records sharing `draw_id` 2500. -/
theorem mongodb_returned_list_duplicates_draw_id :
    DataFrameManagerMongoDB.update_dataframe_mongodb []
        [⟨2500, ['a'], PyVal.vlist [PyScalar.sint 1]⟩,
         ⟨2500, ['b'], PyVal.vlist [PyScalar.sint 2]⟩]
      = Except.ok ([⟨2500, ['a'], [PyScalar.sint 1]⟩],
          [⟨2500, ['a'], [PyScalar.sint 1]⟩, ⟨2500, ['b'], [PyScalar.sint 2]⟩]) ∧
    ¬ (keysOfM [⟨2500, ['a'], [PyScalar.sint 1]⟩,
        ⟨2500, ['b'], [PyScalar.sint 2]⟩]).Nodup :=
  ⟨rfl, by decide⟩

/-- C3 amended: when no two records of the existing collection share a
`draw_id`, the tabular merge output and the document-store collection state
after a merge again have pairwise-distinct `draw_id`s, even for batches with
repeated `draw_id`s; however the in-memory list returned by
`update_dataframe_mongodb` may contain several records with the same
`draw_id` when the batch does. -/
theorem merge_preserves_key_uniqueness_amended :
    (∀ (df : List Row) (B : List Payload) (E : List Row), (keysOf df).Nodup →
      DataFrameManager.update_dataframe df B = Except.ok E → (keysOf E).Nodup) ∧
    (∀ (store : List MDoc) (B : List Payload) (S R : List MDoc),
      (keysOfM store).Nodup →
      DataFrameManagerMongoDB.update_dataframe_mongodb store B = Except.ok (S, R) →
      (keysOfM S).Nodup) := by
  constructor
  · intro df B E hnd h
    rw [update_dataframe_eq_updatePure] at h
    cases hp : parseBatch B with
    | error e => rw [hp] at h; cases h
    | ok ts =>
        rw [hp] at h
        have hE : updatePure df ts = E := by
          have h' : (Except.ok (updatePure df ts) : Except (List Char) (List Row))
            = Except.ok E := h
          exact Except.ok.inj h'
        rw [← hE]
        exact keysOf_updatePure_nodup ts df hnd
  · intro store B S R hnd h
    rw [update_dataframe_mongodb_eq] at h
    cases hc : convBatch B with
    | error e => rw [hc] at h; cases h
    | ok ds =>
        rw [hc] at h
        have hS : DataFrameManagerMongoDB.update_data_to_mongodb store ds = S := by
          have h' : (Except.ok (DataFrameManagerMongoDB.update_data_to_mongodb store ds, ds)
            : Except (List Char) (List MDoc × List MDoc)) = Except.ok (S, R) := h
          exact congrArg Prod.fst (Except.ok.inj h')
        rw [← hS]
        exact keysOfM_update_nodup ds store hnd

/-- Witness for `merge_preserves_key_uniqueness_amended`: merging a
duplicate-keyed batch into an empty store leaves the output keys
duplicate-free on both backends. -/
theorem merge_preserves_key_uniqueness_witness :
    (keysOf [⟨2500, ['b'], PyVal.vstr ['2']⟩]).Nodup ∧
    (keysOfM [⟨2500, ['a'], [PyScalar.sint 1]⟩]).Nodup :=
  ⟨merge_preserves_key_uniqueness_amended.1 []
      [⟨2500, ['a'], PyVal.vlist [PyScalar.sint 1]⟩,
       ⟨2500, ['b'], PyVal.vlist [PyScalar.sint 2]⟩]
      [⟨2500, ['b'], PyVal.vstr ['2']⟩] (by decide) rfl,
   merge_preserves_key_uniqueness_amended.2 []
      [⟨2500, ['a'], PyVal.vlist [PyScalar.sint 1]⟩,
       ⟨2500, ['b'], PyVal.vlist [PyScalar.sint 2]⟩]
      [⟨2500, ['a'], [PyScalar.sint 1]⟩]
      [⟨2500, ['a'], [PyScalar.sint 1]⟩, ⟨2500, ['b'], [PyScalar.sint 2]⟩]
      (by decide) rfl⟩
